import Mathlib

/-!
Verification of the markdown-notes synchronizer (src/__init__.py).

The development shallowly embeds the add-on's pure logic:

* lines of a markdown file are lists of characters (`MdLine`);
* the host collection (the external flashcard application's storage,
  accessed in the source through its note/deck API) is a `Collection`
  record; its operations, being an external collaborator that the
  source only calls, are modelled from the spec's host-API contract:
  lookup by id fails for an absent id, create honours an optional
  explicit id and otherwise assigns the next fresh id (the host's
  identifiers are timestamp-like integers of at least 13 decimal
  digits), update rewrites the fields in place;
* string-typed identifiers of the source (`current_id` is the digit
  string of an identifier comment) are carried verbatim as character
  lists and converted to their numeric value where the source hands
  them to the host API; identifier comparison is numeric;
* filesystem enumeration follows Python's documented glob semantics:
  a `*` pattern component does not match names with a leading period.

Python's `\x64` digit class is modelled as the ASCII digits, and the
decimal rendering of note ids supports values below 10^32 (the host's
ids have 13 digits).
-/

/-- A line (or any piece of text) of a markdown file, as its characters. -/
abbrev MdLine := List Char

/-- Characters of a string literal. -/
def s2l (s : String) : MdLine := s.toList

/-- Whitespace for Python's str.strip(). -/
def isPySpace (c : Char) : Bool :=
  c == ' ' || c == '\t' || c == '\n' || c == '\r' || c == '\x0b' || c == '\x0c'

/-- Python str.lstrip(). -/
def lstrip (l : MdLine) : MdLine := l.dropWhile isPySpace

/-- Python str.rstrip(). -/
def rstrip (l : MdLine) : MdLine := (l.reverse.dropWhile isPySpace).reverse

/-- Python str.strip(). -/
def strip (l : MdLine) : MdLine := rstrip (lstrip l)

/-- Python line.startswith(p). -/
def pyStartsWith (p l : MdLine) : Bool := p.isPrefixOf l

/-- The blank-line test of the scanner: `not line.strip()`. -/
def isBlankLine (l : MdLine) : Bool := (strip l).isEmpty

/-- The question marker. -/
def qMarker : MdLine := ['Q', ':']

/-- The reversed-question marker. -/
def qaMarker : MdLine := ['Q', 'A', ':']

/-- The answer marker. -/
def aMarker : MdLine := ['A', ':']

/-- BASIC_MODEL of the source. -/
def BASIC_MODEL : MdLine := s2l ("Basic")

/-- REVERSE_MODEL of the source. -/
def REVERSE_MODEL : MdLine := s2l ("Basic (and reversed card)")

/-- The default deck name. -/
def DEFAULT_DECK : MdLine := s2l ("Default")

/-! ## Decimal rendering of note ids -/

/-- The character of one decimal digit. -/
def digitChar (d : Nat) : Char := Char.ofNat (48 + d)

/-- Digits of n, most significant first; fuel bounds the digit count. -/
def toDigitsAux (fuel : Nat) (n : Nat) : MdLine :=
  match fuel with
  | 0 => []
  | f + 1 => if n = 0 then [] else toDigitsAux f (n / 10) ++ [digitChar (n % 10)]

/-- Python str(id) for a numeric note id (ids are below 10^32). -/
def natToLine (n : Nat) : MdLine := if n = 0 then ['0'] else toDigitsAux 32 n

/-- Numeric value of a digit string (int(), or SQLite numeric affinity,
applied where the source hands a digit string to the host API). -/
def lineToNat (l : MdLine) : Nat := l.foldl (fun a c => 10 * a + (c.toNat - 48)) 0

/-! ## The line classifier: identifier comments

`is_id_comment` embeds re.search of the pattern
`<!-` `{2,}` ` *` `\x64{13,}` ` *` `-{2,}` `>` (the source's
id_comment_pattern): a search succeeds iff some suffix of the line
starts with a match, and because the pieces of the pattern draw from
pairwise disjoint character classes, the greedy maximal-munch scan
below is exactly match existence. -/

/-- Matches the part of the identifier-comment pattern after `<!`:
two-or-more dashes, spaces, 13-or-more digits, spaces, two-or-more
dashes, then `>`. -/
def matchIdTail (rest : MdLine) : Bool :=
  let d1 := rest.takeWhile (fun c => c == '-')
  let r1 := rest.dropWhile (fun c => c == '-')
  if d1.length < 2 then false else
  let r2 := r1.dropWhile (fun c => c == ' ')
  let digs := r2.takeWhile Char.isDigit
  let r3 := r2.dropWhile Char.isDigit
  if digs.length < 13 then false else
  let r4 := r3.dropWhile (fun c => c == ' ')
  let d2 := r4.takeWhile (fun c => c == '-')
  let r5 := r4.dropWhile (fun c => c == '-')
  if d2.length < 2 then false else
  match r5 with
  | '>' :: _ => true
  | _ => false

/-- Whether an identifier comment's pattern matches at the start of l. -/
def matchIdAt (l : MdLine) : Bool :=
  match l with
  | c1 :: c2 :: rest => c1 == '<' && c2 == '!' && matchIdTail rest
  | _ => false

/-- is_id_comment of the source: the pattern matches somewhere in the line. -/
def is_id_comment (line : MdLine) : Bool := line.tails.any matchIdAt

/-- get_id_from_comment of the source: re.findall of `\x64{13,}` then
index 0, i.e. the digit run at the first position where 13 or more
consecutive digits start; `none` models the IndexError of indexing an
empty findall result. -/
def get_id_from_comment : MdLine → Option MdLine
  | [] => none
  | c :: rest =>
    let digs := (c :: rest).takeWhile Char.isDigit
    if 13 ≤ digs.length then some digs else get_id_from_comment rest

/-! ## The host collection -/

/-- A note record of the host collection. -/
structure HostNote where
  front : MdLine
  back : MdLine
  tags : List MdLine
  deck : MdLine
  model : MdLine
deriving DecidableEq

/-- The host collection: notes keyed by numeric id, the next fresh id
(a timestamp-like integer), the note types available, the decks. -/
structure Collection where
  notes : List (Nat × HostNote)
  nextId : Nat
  models : List MdLine
  decks : List MdLine
deriving DecidableEq

/-- Modelled from the spec: host lookup-note-by-id, which fails (throws)
for an id absent from the collection. -/
def getNote (col : Collection) (id : Nat) : Option HostNote :=
  (col.notes.find? (fun p => p.1 == id)).map (fun p => p.2)

/-- Modelled from the spec: get-or-create-deck-by-name. -/
def addDeck (col : Collection) (deck : MdLine) : Collection :=
  if deck ∈ col.decks then col else { col with decks := col.decks ++ [deck] }

/-- Modelled from the spec: store a note under an id (replacing any
note already under it). -/
def setNote (col : Collection) (id : Nat) (n : HostNote) : Collection :=
  if col.notes.any (fun p => p.1 == id) then
    { col with notes := col.notes.map (fun p => if p.1 == id then (id, n) else p) }
  else
    { col with notes := col.notes ++ [(id, n)] }

/-- Tag addition on a note (host addTag: duplicates are not kept). -/
def addTagL (tags : List MdLine) (tag : MdLine) : List MdLine :=
  if tag ∈ tags then tags else tags ++ [tag]

/-- add_note of the source: returns none (and no change) if the model
name does not exist; otherwise creates or reuses the deck and stores a
new note, under note_id when passed and under the host-assigned fresh
id otherwise, returning the id stored. -/
def add_note (col : Collection) (front back tag : MdLine) (model : Option MdLine)
    (deck : MdLine) (note_id : Option Nat) : Option Nat × Collection :=
  match model with
  | none => (none, col)
  | some m =>
    if m ∈ col.models then
      let id := note_id.getD col.nextId
      let col1 := setNote (addDeck col deck) id
        { front := front, back := back, tags := [tag], deck := deck, model := m }
      (some id, { col1 with nextId := max col.nextId (id + 1) })
    else (none, col)

/-- modify_note of the source: overwrite the fields of the note under
id, add the tag, return the note's id. -/
def modify_note (col : Collection) (id : Nat) (front back tag : MdLine) :
    Nat × Collection :=
  (id, { col with notes := col.notes.map (fun p =>
    if p.1 == id then
      (p.1, { p.2 with front := front, back := back, tags := addTagL p.2.tags tag })
    else p) })

/-! ## The note parser / file scanner -/

/-- The accumulation state of process_file: the front and back line
lists, the model (None until a question marker is seen), and the
current_id digit string (empty string for none). -/
structure NoteAcc where
  front : List MdLine
  back : List MdLine
  model : Option MdLine
  current_id : MdLine
deriving DecidableEq

/-- The accumulation state at the start of a file and after each reset. -/
def accInit : NoteAcc := { front := [], back := [], model := none, current_id := [] }

/-- Python "<br>".join(lines). -/
def joinBr : List MdLine → MdLine
  | [] => []
  | [l] => l
  | l :: ls => l ++ s2l ("<br>") ++ joinBr ls

/-- The identifier-comment line the scanner writes:
`<!--` space, the id, space `-->` and a newline. -/
def idCommentLine (id : MdLine) : MdLine :=
  '<' :: '!' :: '-' :: '-' :: ' ' :: (id ++ [' ', '-', '-', '>', '\n'])

/-- The non-blank line dispatch of process_file's loop (the branch
chain run on every buffered, non-blank line). -/
def accumLine (a : NoteAcc) (l : MdLine) : NoteAcc :=
  if pyStartsWith qMarker l then
    { a with model := some BASIC_MODEL, front := a.front ++ [strip (l.drop 2)] }
  else if pyStartsWith qaMarker l then
    { a with model := some REVERSE_MODEL, front := a.front ++ [strip (l.drop 3)] }
  else if is_id_comment l then
    { a with current_id := (get_id_from_comment l).getD [] }
  else if pyStartsWith aMarker l then
    { a with back := a.back ++ [strip (l.drop 2)] }
  else if a.back.isEmpty then
    { a with front := a.front ++ [strip l] }
  else
    { a with back := a.back ++ [strip l] }

/-- handle_note of the source, acting on the accumulation state, the
buffered lines `to_write`, and the collection. Returns the collection,
the lines the note resolution writes to the temp file (empty when the
front or the back is empty: the early return then skips writelines),
and the id added to the file's surviving set (none on failure). -/
def handle_note (tag deck : MdLine) (a : NoteAcc) (to_write : List MdLine)
    (col : Collection) : Collection × List MdLine × Option Nat :=
  if a.front.isEmpty || a.back.isEmpty then (col, [], none)
  else
    let front_text := joinBr a.front
    let back_text := joinBr a.back
    if a.current_id.isEmpty then
      match add_note col front_text back_text tag a.model deck none with
      | (some nid, col1) =>
        (col1, to_write.take (to_write.length - 1) ++ [idCommentLine (natToLine nid)]
          ++ to_write.drop (to_write.length - 1), some nid)
      | (none, col1) => (col1, to_write, none)
    else
      match getNote col (lineToNat a.current_id) with
      | some _ =>
        let r := modify_note col (lineToNat a.current_id) front_text back_text tag
        (r.2, to_write, some r.1)
      | none =>
        match add_note col front_text back_text tag a.model deck
          (some (lineToNat a.current_id)) with
        | (some nid, col1) =>
          (col1, to_write.set (to_write.length - 2) (idCommentLine a.current_id),
            some nid)
        | (none, col1) => (col1, to_write, none)

/-- Add a successfully handled note's id to the file's surviving set. -/
def addId (ids : List Nat) : Option Nat → List Nat
  | none => ids
  | some i => if i ∈ ids then ids else ids ++ [i]

/-- The whole state threaded through process_file's loop: the
collection, the accumulation state, the to_write buffer, the lines
already written to the temp file, and the surviving ids of the file. -/
structure LoopState where
  col : Collection
  acc : NoteAcc
  to_write : List MdLine
  out : List MdLine
  ids : List Nat
deriving DecidableEq

/-- One iteration of process_file's loop on one input line. -/
def fileStep (tag deck : MdLine) (s : LoopState) (l : MdLine) : LoopState :=
  if !(pyStartsWith qMarker l || pyStartsWith qaMarker l || !s.to_write.isEmpty) then
    { s with out := s.out ++ [l] }
  else if isBlankLine l then
    match handle_note tag deck s.acc (s.to_write ++ [l]) s.col with
    | (col1, written, idOpt) =>
      { col := col1, acc := accInit, to_write := [],
        out := s.out ++ written, ids := addId s.ids idOpt }
  else
    { s with acc := accumLine s.acc l, to_write := s.to_write ++ [l] }

/-- The code after process_file's loop: normalize the last buffered
line to end in a newline, append a synthetic blank line, resolve a
possibly open note once more. -/
def finalizeFile (tag deck : MdLine) (s : LoopState) : LoopState :=
  let tw1 := match s.to_write.getLast? with
    | none => s.to_write
    | some last => s.to_write.dropLast ++ [strip last ++ ['\n']]
  match handle_note tag deck s.acc (tw1 ++ [['\n']]) s.col with
  | (col1, written, idOpt) =>
    { col := col1, acc := accInit, to_write := [],
      out := s.out ++ written, ids := addId s.ids idOpt }

/-- process_file of the source on a file's lines: the final out is the
rewritten file (the temp file renamed over the original), ids the set
of identifiers that now exist in the host for this file. -/
def process_file (tag deck : MdLine) (col : Collection) (lines : List MdLine) :
    LoopState :=
  finalizeFile tag deck (lines.foldl (fileStep tag deck)
    { col := col, acc := accInit, to_write := [], out := [], ids := [] })

/-! ## The reconciler -/

/-- Own concat-map, for the nested deck/note loops. -/
def concatMap (f : α → List β) : List α → List β
  | [] => []
  | a :: t => f a ++ concatMap f t

/-- Modelled from the spec: host findNotes("deck:" ++ deck), the ids of
the notes of one deck. -/
def findNotes (col : Collection) (deck : MdLine) : List Nat :=
  (col.notes.filter (fun p => p.2.deck == deck)).map (fun p => p.1)

/-- delete_notes of the source: walk every deck of the host collection,
collect (and count) every note id not in existing_notes_ids, remove
those notes; returns the new collection and num_deleted. -/
def delete_notes (col : Collection) (existing : List Nat) : Collection × Nat :=
  let hits := concatMap (fun d => (findNotes col d).filter
    (fun cid => !(existing.contains cid))) col.decks
  ({ col with notes := col.notes.filter (fun p => !(hits.contains p.1)) },
    hits.length)

/-! ## Deck/folder routing -/

/-- A filesystem for the import: each file's path components (relative
to the chosen notes folder) with its content as lines. -/
abbrev MdFS := List (List MdLine × List MdLine)

/-- Whether glob's `*.md` pattern component matches a name: the name
ends in `.md` and, per glob's documented behaviour, does not start
with a period. -/
def isMdName (n : MdLine) : Bool :=
  !(n.head? == some '.') && (s2l (".md")).isSuffixOf n

/-- Whether glob's `*` pattern component matches a folder name. -/
def isStarName (n : MdLine) : Bool := !(n.head? == some '.')

/-- The files glob(notes_path, "*.md") enumerates. -/
def rootFiles (fs : MdFS) : MdFS :=
  fs.filter (fun f => match f.1 with
    | [n] => isMdName n
    | _ => false)

/-- The files glob(notes_path, "*", "*.md") enumerates. -/
def subFiles (fs : MdFS) : MdFS :=
  fs.filter (fun f => match f.1 with
    | [d, n] => isStarName d && isMdName n
    | _ => false)

/-- basename(dirname(file)) for a one-subfolder path. -/
def deckOfPath (path : List MdLine) : MdLine :=
  match path with
  | [d, _] => d
  | _ => []

/-- basename(file).split('.')[0]: the tag of a file's notes. -/
def tagOf (name : MdLine) : MdLine := name.takeWhile (fun c => !(c == '.'))

/-- The files an import run processes, with the deck each is routed to:
root files to the deck Default, one-level files to the deck named
after the parent folder, in that order. -/
def discovered (fs : MdFS) : List ((List MdLine × List MdLine) × MdLine) :=
  (rootFiles fs).map (fun f => (f, DEFAULT_DECK))
    ++ (subFiles fs).map (fun f => (f, deckOfPath f.1))

/-- deck_counter[deck] = deck_counter.get(deck, 0) + k. -/
def bumpCounter (dc : List (MdLine × Nat)) (deck : MdLine) (k : Nat) :
    List (MdLine × Nat) :=
  if dc.any (fun p => p.1 == deck) then
    dc.map (fun p => if p.1 == deck then (p.1, p.2 + k) else p)
  else dc ++ [(deck, k)]

/-- The outcome of process_all_notes: the collection, the rewritten
filesystem, the per-deck counts, and the deletion count (none when no
file was found, in which case delete_notes is never invoked). -/
structure ImportResult where
  col : Collection
  fs : MdFS
  deckCounter : List (MdLine × Nat)
  deleted : Option Nat
deriving DecidableEq

/-- process_all_notes of the source: process every discovered file in
order, accumulating the surviving ids; if no file was found, stop;
otherwise run the deletion pass over the whole collection. -/
def process_all_notes (col : Collection) (fs : MdFS) : ImportResult :=
  let r := (discovered fs).foldl (fun st fd =>
    let name := fd.1.1.getLast?.getD []
    let pr := process_file (tagOf name) fd.2 st.1 fd.1.2
    (pr.col, bumpCounter st.2.1 fd.2 pr.ids.length, st.2.2.1 ++ pr.ids,
      st.2.2.2 ++ [(fd.1.1, pr.out)]))
    (col, ([] : List (MdLine × Nat)), ([] : List Nat),
      ([] : List (List MdLine × List MdLine)))
  let newFs := fs.map (fun f => match r.2.2.2.find? (fun o => o.1 == f.1) with
    | some o => (f.1, o.2)
    | none => f)
  if r.2.1.isEmpty then
    { col := r.1, fs := newFs, deckCounter := r.2.1, deleted := none }
  else
    let d := delete_notes r.1 r.2.2.1
    { col := d.1, fs := newFs,
      deckCounter := bumpCounter r.2.1 (s2l ("DELETED")) d.2, deleted := some d.2 }

/-! ## The exporter -/

/-- Expand the line-break placeholder back to real line breaks. -/
def replaceBr : MdLine → MdLine
  | '<' :: 'b' :: 'r' :: '>' :: rest => '\n' :: replaceBr rest
  | c :: rest => c :: replaceBr rest
  | [] => []

/-- write_note of the source: the text one note contributes to its
deck's markdown file; a note of an unsupported model contributes
nothing (logged and skipped). -/
def write_note (n : HostNote) (id : Nat) : List MdLine :=
  if n.model = BASIC_MODEL then
    [s2l ("Q: ") ++ replaceBr n.front ++ ['\n'], s2l ("A: ") ++ replaceBr n.back
      ++ ['\n'], idCommentLine (natToLine id) ++ ['\n']]
  else if n.model = REVERSE_MODEL then
    [s2l ("QA: ") ++ replaceBr n.front ++ ['\n'], s2l ("A: ") ++ replaceBr n.back
      ++ ['\n'], idCommentLine (natToLine id) ++ ['\n']]
  else []

/-- The outcome of export_all_notes: the folders created, the files
written, whether the user was shown the abort message, and the deck
list returned (none models the early `return 0`). -/
structure ExportResult where
  folders : List (List MdLine)
  files : List (List MdLine × List MdLine)
  notifiedAbort : Bool
  decksExported : Option (List MdLine)
deriving DecidableEq

/-- export_all_notes of the source: abort (with a message, creating and
writing nothing) when the Notes folder already exists; otherwise
create the Notes folder, and one folder and one file per deck. -/
def export_all_notes (col : Collection) (notesFolderExists : Bool) : ExportResult :=
  if notesFolderExists then
    { folders := [], files := [], notifiedAbort := true, decksExported := none }
  else
    { folders := [[s2l ("Notes")]] ++ col.decks.map (fun d => [s2l ("Notes"), d]),
      files := col.decks.map (fun d => ([s2l ("Notes"), d, d ++ s2l (".md")],
        [s2l ("# ") ++ d ++ s2l (" \n\n")] ++ concatMap (fun cid =>
          match getNote col cid with
          | some n => write_note n cid
          | none => []) (findNotes col d))),
      notifiedAbort := false, decksExported := some col.decks }

/-! ## Helper lemmas: takeWhile, dropWhile, strip -/

theorem takeWhile_append_all {α : Type} {p : α → Bool} {a b : List α}
    (h : ∀ c ∈ a, p c = true) : (a ++ b).takeWhile p = a ++ b.takeWhile p := by
  induction a with
  | nil => simp
  | cons c t ih =>
    have hc : p c = true := h c (by simp)
    simp only [List.cons_append, List.takeWhile_cons, hc, if_true]
    simp [ih (fun x hx => h x (by simp [hx]))]

theorem dropWhile_append_all {α : Type} {p : α → Bool} {a b : List α}
    (h : ∀ c ∈ a, p c = true) : (a ++ b).dropWhile p = b.dropWhile p := by
  induction a with
  | nil => simp
  | cons c t ih =>
    have hc : p c = true := h c (by simp)
    simp only [List.cons_append, List.dropWhile_cons, hc, if_true]
    exact ih (fun x hx => h x (by simp [hx]))

theorem takeWhile_head_not {α : Type} {p : α → Bool} {c : α} (t : List α)
    (h : p c = false) : (c :: t).takeWhile p = [] := by
  simp [List.takeWhile_cons, h]

theorem dropWhile_head_not {α : Type} {p : α → Bool} {c : α} (t : List α)
    (h : p c = false) : (c :: t).dropWhile p = c :: t := by
  simp [List.dropWhile_cons, h]

theorem dropWhile_append_last_ne_nil {α : Type} {p : α → Bool} {c : α}
    (l : List α) (h : p c = false) : (l ++ [c]).dropWhile p ≠ [] := by
  induction l with
  | nil => simp [List.dropWhile_cons, h]
  | cons x t ih =>
    by_cases hx : p x
    · simpa [List.dropWhile_cons, hx] using ih
    · simp [List.dropWhile_cons, hx]

theorem isBlankLine_cons_false {c : Char} (t : MdLine) (h : isPySpace c = false) :
    isBlankLine (c :: t) = false := by
  have h1 : lstrip (c :: t) = c :: t := dropWhile_head_not t h
  have h2 : rstrip (c :: t) ≠ [] := by
    unfold rstrip
    rw [List.reverse_cons]
    intro hcon
    exact dropWhile_append_last_ne_nil t.reverse h
      (by simpa using congrArg List.reverse hcon)
  unfold isBlankLine strip
  rw [h1]
  simpa [List.isEmpty_iff] using h2

theorem isBlankLine_q_false {l : MdLine} (h : pyStartsWith qMarker l = true) :
    isBlankLine l = false := by
  rcases (List.isPrefixOf_iff_prefix).mp h with ⟨t, ht⟩
  rw [← ht]
  exact isBlankLine_cons_false _ (by decide)

theorem isBlankLine_qa_false {l : MdLine} (h : pyStartsWith qaMarker l = true) :
    isBlankLine l = false := by
  rcases (List.isPrefixOf_iff_prefix).mp h with ⟨t, ht⟩
  rw [← ht]
  exact isBlankLine_cons_false _ (by decide)

/-! ## Helper lemmas: decimal digits -/

theorem digitChar_isDigit {d : Nat} (h : d < 10) : (digitChar d).isDigit = true := by
  interval_cases d <;> decide

theorem digitChar_val {d : Nat} (h : d < 10) : (digitChar d).toNat - 48 = d := by
  interval_cases d <;> decide

theorem digitChar_ne_dash {d : Nat} (h : d < 10) : (digitChar d == '-') = false := by
  interval_cases d <;> decide

theorem toDigitsAux_zero (fuel : Nat) : toDigitsAux fuel 0 = [] := by
  cases fuel <;> simp [toDigitsAux]

theorem toDigitsAux_all_digits : ∀ fuel n c, c ∈ toDigitsAux fuel n →
    c.isDigit = true := by
  intro fuel
  induction fuel with
  | zero => intro n c hc; simp [toDigitsAux] at hc
  | succ f ih =>
    intro n c hc
    by_cases hn : n = 0
    · simp [toDigitsAux, hn] at hc
    · rw [toDigitsAux, if_neg hn] at hc
      rcases List.mem_append.mp hc with h1 | h2
      · exact ih _ _ h1
      · rw [List.mem_singleton.mp h2]
        exact digitChar_isDigit (Nat.mod_lt _ (by norm_num))

theorem natToLine_all_digits (n : Nat) : ∀ c ∈ natToLine n, c.isDigit = true := by
  intro c hc
  by_cases hn : n = 0
  · simp [natToLine, hn] at hc
    rw [hc]; decide
  · rw [natToLine, if_neg hn] at hc
    exact toDigitsAux_all_digits 32 n c hc

theorem toDigitsAux_ne_nil {fuel n : Nat} (hf : fuel ≠ 0) (hn : n ≠ 0) :
    toDigitsAux fuel n ≠ [] := by
  cases fuel with
  | zero => exact absurd rfl hf
  | succ f => rw [toDigitsAux, if_neg hn]; simp

theorem natToLine_ne_nil (n : Nat) : natToLine n ≠ [] := by
  by_cases hn : n = 0
  · simp [natToLine, hn]
  · rw [natToLine, if_neg hn]
    exact toDigitsAux_ne_nil (by norm_num) hn

theorem toDigitsAux_foldl : ∀ fuel n a, n < 10 ^ fuel →
    (toDigitsAux fuel n).foldl (fun x c => 10 * x + (c.toNat - 48)) a
      = a * 10 ^ (toDigitsAux fuel n).length + n := by
  intro fuel
  induction fuel with
  | zero =>
    intro n a h
    interval_cases n
    simp [toDigitsAux]
  | succ f ih =>
    intro n a h
    by_cases hn : n = 0
    · simp [toDigitsAux, hn]
    · rw [toDigitsAux, if_neg hn]
      have hd : n / 10 < 10 ^ f := by
        apply Nat.div_lt_of_lt_mul
        calc n < 10 ^ (f + 1) := h
        _ = 10 * 10 ^ f := by ring
      rw [List.foldl_append]
      simp only [List.foldl_cons, List.foldl_nil]
      rw [ih (n / 10) a hd]
      rw [digitChar_val (Nat.mod_lt _ (by norm_num))]
      rw [List.length_append]
      simp only [List.length_singleton]
      have hmod := Nat.div_add_mod n 10
      ring_nf
      omega

theorem lineToNat_natToLine {n : Nat} (h : n < 10 ^ 32) :
    lineToNat (natToLine n) = n := by
  by_cases hn : n = 0
  · simp [natToLine, hn, lineToNat]
  · rw [natToLine, if_neg hn]
    unfold lineToNat
    rw [toDigitsAux_foldl 32 n 0 h]
    ring

theorem toDigitsAux_lt : ∀ fuel n, n < 10 ^ fuel →
    n < 10 ^ (toDigitsAux fuel n).length := by
  intro fuel
  induction fuel with
  | zero => intro n h; interval_cases n; simp [toDigitsAux]
  | succ f ih =>
    intro n h
    by_cases hn : n = 0
    · simp [toDigitsAux, hn]
    · rw [toDigitsAux, if_neg hn]
      have hd : n / 10 < 10 ^ f := by
        apply Nat.div_lt_of_lt_mul
        calc n < 10 ^ (f + 1) := h
        _ = 10 * 10 ^ f := by ring
      have h1 := ih (n / 10) hd
      rw [List.length_append]
      simp only [List.length_singleton]
      have hmod := Nat.div_add_mod n 10
      have : n < 10 * 10 ^ (toDigitsAux f (n / 10)).length := by omega
      calc n < 10 * 10 ^ (toDigitsAux f (n / 10)).length := this
      _ = 10 ^ ((toDigitsAux f (n / 10)).length + 1) := by ring

theorem toDigitsAux_le : ∀ fuel n, n ≠ 0 → n < 10 ^ fuel →
    10 ^ ((toDigitsAux fuel n).length - 1) ≤ n := by
  intro fuel
  induction fuel with
  | zero => intro n hn h; interval_cases n; exact absurd rfl hn
  | succ f ih =>
    intro n hn h
    rw [toDigitsAux, if_neg hn]
    have hd : n / 10 < 10 ^ f := by
      apply Nat.div_lt_of_lt_mul
      calc n < 10 ^ (f + 1) := h
      _ = 10 * 10 ^ f := by ring
    rw [List.length_append]
    simp only [List.length_singleton]
    by_cases hq : n / 10 = 0
    · rw [hq, toDigitsAux_zero]
      simp only [List.length_nil, Nat.zero_add, Nat.add_sub_cancel, pow_zero]
      omega
    · have h1 := ih (n / 10) hq hd
      have h2 : toDigitsAux f (n / 10) ≠ [] := by
        cases f with
        | zero => interval_cases n <;> simp_all
        | succ f2 => exact toDigitsAux_ne_nil (by norm_num) hq
      have h3 : 1 ≤ (toDigitsAux f (n / 10)).length := by
        cases hl : toDigitsAux f (n / 10) with
        | nil => exact absurd hl h2
        | cons x t => simp
      have hmod := Nat.div_add_mod n 10
      have : 10 ^ ((toDigitsAux f (n / 10)).length + 1 - 1)
          = 10 * 10 ^ ((toDigitsAux f (n / 10)).length - 1) := by
        rw [Nat.add_sub_cancel]
        rw [← pow_succ']
        congr 1
        omega
      rw [this]
      omega

theorem natToLine_length13 {n : Nat} (h12 : 10 ^ 12 ≤ n) (h32 : n < 10 ^ 32) :
    13 ≤ (natToLine n).length := by
  have hn : n ≠ 0 := by positivity
  rw [natToLine, if_neg hn]
  by_contra hlen
  push_neg at hlen
  have h1 := toDigitsAux_lt 32 n h32
  have h2 : 10 ^ (toDigitsAux 32 n).length ≤ 10 ^ 12 :=
    Nat.pow_le_pow_right (by norm_num) (by omega)
  omega

/-! ## The identifier-comment pattern, declaratively -/

/-- The identifier-comment shape at the start of a text: the opening
pair, two-or-more dashes, spaces, 13-or-more consecutive digits,
spaces, two-or-more matching closing dashes, the closing bracket. -/
def IdCommentShape (t : MdLine) : Prop :=
  ∃ d1 sp1 digs sp2 d2 post,
    t = '<' :: '!' :: (d1 ++ (sp1 ++ (digs ++ (sp2 ++ (d2 ++ '>' :: post))))) ∧
    2 ≤ d1.length ∧ (∀ c ∈ d1, c = '-') ∧ (∀ c ∈ sp1, c = ' ') ∧
    13 ≤ digs.length ∧ (∀ c ∈ digs, c.isDigit = true) ∧ (∀ c ∈ sp2, c = ' ') ∧
    2 ≤ d2.length ∧ (∀ c ∈ d2, c = '-')

/-- A line contains an identifier comment: the shape occurs at some
position of the line. -/
def IdCommentSpec (line : MdLine) : Prop := ∃ pre t, line = pre ++ t ∧ IdCommentShape t

theorem digit_not_dash {c : Char} (h : c.isDigit = true) : (c == '-') = false := by
  rw [beq_eq_false_iff_ne]
  rintro rfl
  exact absurd h (by decide)

theorem digit_not_space {c : Char} (h : c.isDigit = true) : (c == ' ') = false := by
  rw [beq_eq_false_iff_ne]
  rintro rfl
  exact absurd h (by decide)

theorem head_false_append {α : Type} {p : α → Bool} {a b : List α}
    (ha : ∀ c ∈ a, p c = false) (hb : ∀ c, b.head? = some c → p c = false) :
    ∀ c, (a ++ b).head? = some c → p c = false := by
  intro c hc
  cases a with
  | nil => exact hb c (by simpa using hc)
  | cons x t =>
    simp only [List.cons_append, List.head?_cons, Option.some.injEq] at hc
    exact hc ▸ ha x (by simp)

theorem head_false_of_all {α : Type} {p : α → Bool} {a : List α} (b : List α)
    (hne : a ≠ []) (ha : ∀ c ∈ a, p c = false) :
    ∀ c, (a ++ b).head? = some c → p c = false := by
  cases a with
  | nil => exact absurd rfl hne
  | cons x t =>
    intro c hc
    simp only [List.cons_append, List.head?_cons, Option.some.injEq] at hc
    exact hc ▸ ha x (by simp)

theorem takeWhile_stops {α : Type} {p : α → Bool} {a b : List α}
    (h : ∀ c ∈ a, p c = true) (hb : ∀ c, b.head? = some c → p c = false) :
    (a ++ b).takeWhile p = a ∧ (a ++ b).dropWhile p = b := by
  constructor
  · rw [takeWhile_append_all h]
    cases b with
    | nil => simp
    | cons c t => rw [takeWhile_head_not t (hb c rfl)]; simp
  · rw [dropWhile_append_all h]
    cases b with
    | nil => simp
    | cons c t => exact dropWhile_head_not t (hb c rfl)

theorem matchIdTail_of_shape {d1 sp1 digs sp2 d2 post : MdLine}
    (hd1 : 2 ≤ d1.length) (hd1a : ∀ c ∈ d1, c = '-')
    (hsp1 : ∀ c ∈ sp1, c = ' ')
    (hdg : 13 ≤ digs.length) (hdga : ∀ c ∈ digs, c.isDigit = true)
    (hsp2 : ∀ c ∈ sp2, c = ' ')
    (hd2 : 2 ≤ d2.length) (hd2a : ∀ c ∈ d2, c = '-') :
    matchIdTail (d1 ++ (sp1 ++ (digs ++ (sp2 ++ (d2 ++ '>' :: post))))) = true := by
  have hdgne : digs ≠ [] := by
    intro h; rw [h] at hdg; simp at hdg
  have hd2ne : d2 ≠ [] := by
    intro h; rw [h] at hd2; simp at hd2
  have s1 := takeWhile_stops (p := fun c => c == '-')
    (a := d1) (b := sp1 ++ (digs ++ (sp2 ++ (d2 ++ '>' :: post))))
    (fun c hc => by rw [hd1a c hc]; rfl)
    (head_false_append (fun c hc => by rw [hsp1 c hc]; rfl)
      (head_false_of_all _ hdgne (fun c hc => digit_not_dash (hdga c hc))))
  have s2 : (sp1 ++ (digs ++ (sp2 ++ (d2 ++ '>' :: post)))).dropWhile
      (fun c => c == ' ') = digs ++ (sp2 ++ (d2 ++ '>' :: post)) :=
    (takeWhile_stops (fun c hc => by rw [hsp1 c hc]; rfl)
      (head_false_of_all _ hdgne (fun c hc => digit_not_space (hdga c hc)))).2
  have s3 := takeWhile_stops (p := Char.isDigit)
    (a := digs) (b := sp2 ++ (d2 ++ '>' :: post)) hdga
    (head_false_append (fun c hc => by rw [hsp2 c hc]; decide)
      (head_false_of_all _ hd2ne (fun c hc => by rw [hd2a c hc]; decide)))
  have s4 : (sp2 ++ (d2 ++ '>' :: post)).dropWhile (fun c => c == ' ')
      = d2 ++ '>' :: post :=
    (takeWhile_stops (fun c hc => by rw [hsp2 c hc]; rfl)
      (head_false_of_all _ hd2ne (fun c hc => by rw [hd2a c hc]; rfl))).2
  have s5 := takeWhile_stops (p := fun c => c == '-') (a := d2) (b := '>' :: post)
    (fun c hc => by rw [hd2a c hc]; rfl)
    (by intro c hc; simp only [List.head?_cons, Option.some.injEq] at hc
        rw [← hc]; rfl)
  simp only [matchIdTail]
  rw [s1.1, s1.2, s2, s3.1, s3.2, s4, s5.1, s5.2]
  rw [if_neg (by omega), if_neg (by omega), if_neg (by omega)]
  rfl

theorem matchIdAt_of_shape {t : MdLine} (h : IdCommentShape t) :
    matchIdAt t = true := by
  obtain ⟨d1, sp1, digs, sp2, d2, post, ht, h1, h2, h3, h4, h5, h6, h7, h8⟩ := h
  rw [ht]
  show (('<' == '<') && ('!' == '!') && _) = true
  rw [matchIdTail_of_shape h1 h2 h3 h4 h5 h6 h7 h8]
  rfl

theorem is_id_comment_of_spec {line : MdLine} (h : IdCommentSpec line) :
    is_id_comment line = true := by
  obtain ⟨pre, t, hline, hshape⟩ := h
  unfold is_id_comment
  rw [List.any_eq_true]
  exact ⟨t, (List.mem_tails t line).mpr ⟨pre, hline.symm⟩, matchIdAt_of_shape hshape⟩

theorem shape_of_matchIdTail {rest : MdLine} (h : matchIdTail rest = true) :
    ∃ d1 sp1 digs sp2 d2 post,
      rest = d1 ++ (sp1 ++ (digs ++ (sp2 ++ (d2 ++ '>' :: post)))) ∧
      2 ≤ d1.length ∧ (∀ c ∈ d1, c = '-') ∧ (∀ c ∈ sp1, c = ' ') ∧
      13 ≤ digs.length ∧ (∀ c ∈ digs, c.isDigit = true) ∧ (∀ c ∈ sp2, c = ' ') ∧
      2 ≤ d2.length ∧ (∀ c ∈ d2, c = '-') := by
  simp only [matchIdTail] at h
  split at h
  · exact absurd h (by simp)
  next h1 =>
    split at h
    · exact absurd h (by simp)
    next h2 =>
      split at h
      · exact absurd h (by simp)
      next h3 =>
        split at h
        next tail heq =>
          refine ⟨rest.takeWhile (fun c => c == '-'),
            (rest.dropWhile (fun c => c == '-')).takeWhile (fun c => c == ' '),
            ((rest.dropWhile (fun c => c == '-')).dropWhile
              (fun c => c == ' ')).takeWhile Char.isDigit,
            (((rest.dropWhile (fun c => c == '-')).dropWhile
              (fun c => c == ' ')).dropWhile Char.isDigit).takeWhile
              (fun c => c == ' '),
            ((((rest.dropWhile (fun c => c == '-')).dropWhile
              (fun c => c == ' ')).dropWhile Char.isDigit).dropWhile
              (fun c => c == ' ')).takeWhile (fun c => c == '-'),
            tail, ?_, by omega, ?_, ?_, by omega, ?_, ?_, by omega, ?_⟩
          · rw [← heq]
            simp only [List.takeWhile_append_dropWhile]
          · intro c hc
            simpa using List.mem_takeWhile_imp hc
          · intro c hc
            simpa using List.mem_takeWhile_imp hc
          · intro c hc
            exact List.mem_takeWhile_imp hc
          · intro c hc
            simpa using List.mem_takeWhile_imp hc
          · intro c hc
            simpa using List.mem_takeWhile_imp hc
        next => exact absurd h (by simp)

theorem spec_of_is_id_comment {line : MdLine} (h : is_id_comment line = true) :
    IdCommentSpec line := by
  unfold is_id_comment at h
  rw [List.any_eq_true] at h
  obtain ⟨t, htails, hmatch⟩ := h
  obtain ⟨pre, hpre⟩ := (List.mem_tails t line).mp htails
  match t, hmatch with
  | c1 :: c2 :: rest, hmatch =>
    simp only [matchIdAt, Bool.and_eq_true, beq_iff_eq] at hmatch
    obtain ⟨⟨hc1, hc2⟩, htail⟩ := hmatch
    obtain ⟨d1, sp1, digs, sp2, d2, post, hrest, hs⟩ := shape_of_matchIdTail htail
    exact ⟨pre, c1 :: c2 :: rest, hpre.symm,
      ⟨d1, sp1, digs, sp2, d2, post, by rw [hc1, hc2, hrest], hs⟩⟩

theorem is_id_comment_iff (line : MdLine) :
    is_id_comment line = true ↔ IdCommentSpec line :=
  ⟨spec_of_is_id_comment, is_id_comment_of_spec⟩

/-! ## Extraction: the first run of 13 or more digits -/

/-- The length of the digit run starting at position k of the line. -/
def digitRunAt (l : MdLine) (k : Nat) : Nat :=
  ((l.drop k).takeWhile Char.isDigit).length

/-- d is the first run of 13-or-more consecutive digits of the line:
the run at the first position whose digit run reaches length 13. -/
def FirstDigitRun (l : MdLine) (d : MdLine) : Prop :=
  ∃ k, 13 ≤ digitRunAt l k ∧ (∀ j < k, digitRunAt l j < 13) ∧
    d = (l.drop k).takeWhile Char.isDigit

theorem digitRunAt_zero (l : MdLine) :
    digitRunAt l 0 = (l.takeWhile Char.isDigit).length := by
  simp [digitRunAt]

theorem digitRunAt_succ_cons (c : Char) (rest : MdLine) (j : Nat) :
    digitRunAt (c :: rest) (j + 1) = digitRunAt rest j := by
  simp [digitRunAt]

theorem get_id_iff (l : MdLine) : ∀ d,
    get_id_from_comment l = some d ↔ FirstDigitRun l d := by
  induction l with
  | nil =>
    intro d
    constructor
    · intro h; simp [get_id_from_comment] at h
    · rintro ⟨k, hk, -, -⟩
      simp [digitRunAt] at hk
  | cons c rest ih =>
    intro d
    by_cases h13 : 13 ≤ ((c :: rest).takeWhile Char.isDigit).length
    · rw [get_id_from_comment, if_pos h13]
      constructor
      · intro h
        refine ⟨0, ?_, by omega, ?_⟩
        · rw [digitRunAt_zero]; exact h13
        · simpa using (Option.some.injEq _ _ ▸ h).symm
      · rintro ⟨k, hk, hmin, hd⟩
        cases k with
        | zero => simp only [List.drop_zero] at hd; rw [hd]
        | succ k2 =>
          have := hmin 0 (by omega)
          rw [digitRunAt_zero] at this
          omega
    · rw [get_id_from_comment, if_neg h13]
      rw [ih d]
      constructor
      · rintro ⟨k, hk, hmin, hd⟩
        refine ⟨k + 1, ?_, ?_, ?_⟩
        · rwa [digitRunAt_succ_cons]
        · intro j hj
          cases j with
          | zero => rw [digitRunAt_zero]; omega
          | succ j2 => rw [digitRunAt_succ_cons]; exact hmin j2 (by omega)
        · simpa using hd
      · rintro ⟨k, hk, hmin, hd⟩
        cases k with
        | zero =>
          rw [digitRunAt_zero] at hk
          omega
        | succ k2 =>
          rw [digitRunAt_succ_cons] at hk
          refine ⟨k2, hk, ?_, by simpa using hd⟩
          intro j hj
          have := hmin (j + 1) (by omega)
          rwa [digitRunAt_succ_cons] at this

theorem get_id_isSome_of_run {l : MdLine} :
    ∀ {k}, 13 ≤ digitRunAt l k → (get_id_from_comment l).isSome = true := by
  induction l with
  | nil =>
    intro k hk
    simp [digitRunAt] at hk
  | cons c rest ih =>
    intro k hk
    by_cases h13 : 13 ≤ ((c :: rest).takeWhile Char.isDigit).length
    · rw [get_id_from_comment, if_pos h13]; rfl
    · rw [get_id_from_comment, if_neg h13]
      cases k with
      | zero => rw [digitRunAt_zero] at hk; omega
      | succ k2 =>
        rw [digitRunAt_succ_cons] at hk
        exact ih hk

theorem get_id_some_of_is_id {line : MdLine} (h : is_id_comment line = true) :
    ∃ d, get_id_from_comment line = some d ∧ FirstDigitRun line d := by
  obtain ⟨pre, t, hline, d1, sp1, digs, sp2, d2, post, ht, hd1, hd1a, hsp1, hdg,
    hdga, hsp2, hd2, hd2a⟩ := spec_of_is_id_comment h
  have hsplit : line = (pre ++ '<' :: '!' :: (d1 ++ sp1))
      ++ (digs ++ (sp2 ++ (d2 ++ '>' :: post))) := by
    rw [hline, ht]; simp
  have hrun : 13 ≤ digitRunAt line (pre ++ '<' :: '!' :: (d1 ++ sp1)).length := by
    unfold digitRunAt
    rw [hsplit, List.drop_left]
    rw [takeWhile_append_all hdga, List.length_append]
    omega
  have hsome := get_id_isSome_of_run hrun
  obtain ⟨d, hd⟩ := Option.isSome_iff_exists.mp hsome
  exact ⟨d, hd, (get_id_iff line d).mp hd⟩

/-! ## The generated identifier-comment line -/

theorem get_id_append_nondigit {pre : MdLine} (rest : MdLine)
    (h : ∀ c ∈ pre, c.isDigit = false) :
    get_id_from_comment (pre ++ rest) = get_id_from_comment rest := by
  induction pre with
  | nil => rfl
  | cons c t ih =>
    have hc : c.isDigit = false := h c (by simp)
    rw [List.cons_append, get_id_from_comment]
    rw [takeWhile_head_not _ hc]
    simp only [List.length_nil]
    rw [if_neg (by omega)]
    exact ih (fun x hx => h x (by simp [hx]))

theorem get_id_digits_first {digs rest : MdLine}
    (hd : ∀ c ∈ digs, c.isDigit = true) (hl : 13 ≤ digs.length)
    (hr : ∀ c, rest.head? = some c → c.isDigit = false) :
    get_id_from_comment (digs ++ rest) = some digs := by
  have hne : digs ≠ [] := by intro h; rw [h] at hl; simp at hl
  obtain ⟨c, t, hct⟩ : ∃ c t, digs = c :: t := by
    cases digs with
    | nil => exact absurd rfl hne
    | cons c t => exact ⟨c, t, rfl⟩
  have hstop := (takeWhile_stops hd hr).1
  rw [hct] at hstop ⊢
  rw [List.cons_append, get_id_from_comment, ← List.cons_append, hstop]
  rw [if_pos (by rw [← hct] at hstop ⊢; omega)]

theorem idCommentLine_eq_append (s : MdLine) :
    idCommentLine s = ['<', '!', '-', '-', ' '] ++ (s ++ [' ', '-', '-', '>', '\n']) := by
  simp [idCommentLine]

theorem idCommentLine_is_id {s : MdLine} (hd : ∀ c ∈ s, c.isDigit = true)
    (hl : 13 ≤ s.length) : is_id_comment (idCommentLine s) = true := by
  apply is_id_comment_of_spec
  refine ⟨[], idCommentLine s, by simp, ['-', '-'], [' '], s, [' '], ['-', '-'],
    ['\n'], ?_, by decide, by decide, by decide, hl, hd, by decide, by decide,
    by decide⟩
  simp [idCommentLine]

theorem idCommentLine_get_id {s : MdLine} (hd : ∀ c ∈ s, c.isDigit = true)
    (hl : 13 ≤ s.length) : get_id_from_comment (idCommentLine s) = some s := by
  rw [idCommentLine_eq_append]
  rw [get_id_append_nondigit _ (by decide)]
  exact get_id_digits_first hd hl
    (by intro c hc; simp only [List.head?_cons, Option.some.injEq] at hc
        rw [← hc]; decide)

theorem isBlankLine_idCommentLine (s : MdLine) :
    isBlankLine (idCommentLine s) = false :=
  isBlankLine_cons_false _ (by decide)

theorem pyStartsWith_q_idCommentLine (s : MdLine) :
    pyStartsWith qMarker (idCommentLine s) = false := by
  simp [pyStartsWith, qMarker, idCommentLine, List.isPrefixOf]

theorem pyStartsWith_qa_idCommentLine (s : MdLine) :
    pyStartsWith qaMarker (idCommentLine s) = false := by
  simp [pyStartsWith, qaMarker, idCommentLine, List.isPrefixOf]

theorem accumLine_idCommentLine (a : NoteAcc) {s : MdLine}
    (hd : ∀ c ∈ s, c.isDigit = true) (hl : 13 ≤ s.length) :
    accumLine a (idCommentLine s) = { a with current_id := s } := by
  unfold accumLine
  rw [pyStartsWith_q_idCommentLine, pyStartsWith_qa_idCommentLine,
    idCommentLine_is_id hd hl]
  simp [idCommentLine_get_id hd hl]

/-! ## Parser step lemmas -/

theorem isEmpty_false_of_ne_nil {α : Type} {l : List α} (h : l ≠ []) :
    l.isEmpty = false :=
  Bool.eq_false_iff.mpr (fun hc => h (List.isEmpty_iff.mp hc))

theorem fileStep_active {tag deck : MdLine} {s : LoopState} {l : MdLine}
    (hg : (pyStartsWith qMarker l || pyStartsWith qaMarker l
      || !s.to_write.isEmpty) = true)
    (hb : isBlankLine l = false) :
    fileStep tag deck s l =
      { s with acc := accumLine s.acc l, to_write := s.to_write ++ [l] } := by
  unfold fileStep
  rw [hg, hb]
  rfl

theorem fileStep_blank {tag deck : MdLine} {s : LoopState} {l : MdLine}
    (hb : isBlankLine l = true) (hw : s.to_write ≠ []) :
    fileStep tag deck s l =
      { col := (handle_note tag deck s.acc (s.to_write ++ [l]) s.col).1,
        acc := accInit, to_write := [],
        out := s.out ++ (handle_note tag deck s.acc (s.to_write ++ [l]) s.col).2.1,
        ids := addId s.ids
          (handle_note tag deck s.acc (s.to_write ++ [l]) s.col).2.2 } := by
  have hw2 : s.to_write.isEmpty = false := isEmpty_false_of_ne_nil hw
  unfold fileStep
  rw [hw2, hb]
  simp only [Bool.not_false, Bool.or_true, Bool.not_true, Bool.false_eq_true,
    if_false]
  rcases hh : handle_note tag deck s.acc (s.to_write ++ [l]) s.col with ⟨c1, w, io⟩
  simp [hh]

theorem foldl_fileStep_nonblank {tag deck : MdLine} :
    ∀ (B : List MdLine) (s : LoopState), (∀ l ∈ B, isBlankLine l = false) →
    s.to_write ≠ [] →
    B.foldl (fileStep tag deck) s =
      { s with acc := B.foldl accumLine s.acc, to_write := s.to_write ++ B } := by
  intro B
  induction B with
  | nil => intro s _ _; simp
  | cons l t ih =>
    intro s hB hw
    rw [List.foldl_cons]
    rw [fileStep_active (by rw [isEmpty_false_of_ne_nil hw]; simp)
      (hB l (by simp))]
    rw [ih _ (fun x hx => hB x (by simp [hx])) (by simp)]
    simp

theorem accumLine_cid_of_not_id {a : NoteAcc} {l : MdLine}
    (h : is_id_comment l = false) :
    (accumLine a l).current_id = a.current_id := by
  unfold accumLine
  split_ifs with h1 h2 h3 h4 h5 <;> simp_all

theorem foldl_accumLine_cid : ∀ (B : List MdLine) (a : NoteAcc),
    (∀ l ∈ B, is_id_comment l = false) →
    (B.foldl accumLine a).current_id = a.current_id := by
  intro B
  induction B with
  | nil => intro a _; rfl
  | cons l t ih =>
    intro a hB
    rw [List.foldl_cons, ih _ (fun x hx => hB x (by simp [hx]))]
    exact accumLine_cid_of_not_id (hB l (by simp))

/-! ## handle_note unfolding lemmas -/

theorem addDeck_notes (col : Collection) (deck : MdLine) :
    (addDeck col deck).notes = col.notes := by
  unfold addDeck; split_ifs <;> rfl

theorem addDeck_models (col : Collection) (deck : MdLine) :
    (addDeck col deck).models = col.models := by
  unfold addDeck; split_ifs <;> rfl

theorem addDeck_nextId (col : Collection) (deck : MdLine) :
    (addDeck col deck).nextId = col.nextId := by
  unfold addDeck; split_ifs <;> rfl

theorem handle_note_empty {tag deck : MdLine} {a : NoteAcc} {tw : List MdLine}
    {col : Collection} (h : a.front = [] ∨ a.back = []) :
    handle_note tag deck a tw col = (col, [], none) := by
  unfold handle_note
  rcases h with h | h <;> rw [h] <;> simp

theorem handle_note_fresh {tag deck : MdLine} {a : NoteAcc} {tw : List MdLine}
    {col : Collection} {m : MdLine}
    (hf : a.front ≠ []) (hb : a.back ≠ []) (hcid : a.current_id = [])
    (hm : a.model = some m) (hmem : m ∈ col.models)
    (hfresh : ∀ p ∈ col.notes, p.1 ≠ col.nextId) :
    handle_note tag deck a tw col =
      ({ notes := col.notes ++ [(col.nextId,
          { front := joinBr a.front, back := joinBr a.back, tags := [tag],
            deck := deck, model := m })],
         nextId := col.nextId + 1, models := col.models,
         decks := (addDeck col deck).decks },
       tw.take (tw.length - 1) ++ [idCommentLine (natToLine col.nextId)]
         ++ tw.drop (tw.length - 1),
       some col.nextId) := by
  unfold handle_note
  rw [isEmpty_false_of_ne_nil hf, isEmpty_false_of_ne_nil hb, hcid]
  simp only [Bool.false_or, Bool.or_false, List.isEmpty_nil, if_true]
  unfold add_note
  rw [hm]
  simp only [hmem, if_true, addDeck_models, Option.getD_none]
  unfold setNote
  have hany : (addDeck col deck).notes.any (fun p => p.1 == col.nextId) = false := by
    rw [addDeck_notes]
    rw [List.any_eq_false]
    intro p hp
    simpa using hfresh p hp
  rw [hany]
  simp only [Bool.false_eq_true, if_false, addDeck_notes, addDeck_nextId]
  have hmax : max col.nextId (col.nextId + 1) = col.nextId + 1 :=
    Nat.max_eq_right (by omega)
  rw [hmax, addDeck_models]

theorem handle_note_modify {tag deck : MdLine} {a : NoteAcc} {tw : List MdLine}
    {col : Collection} {note : HostNote}
    (hf : a.front ≠ []) (hb : a.back ≠ []) (hcid : a.current_id ≠ [])
    (hlookup : getNote col (lineToNat a.current_id) = some note) :
    handle_note tag deck a tw col =
      ((modify_note col (lineToNat a.current_id) (joinBr a.front)
        (joinBr a.back) tag).2, tw, some (lineToNat a.current_id)) := by
  unfold handle_note
  rw [isEmpty_false_of_ne_nil hf, isEmpty_false_of_ne_nil hb,
    isEmpty_false_of_ne_nil hcid]
  simp only [Bool.false_or, Bool.or_false, Bool.false_eq_true, if_false]
  rw [hlookup]
  rfl

theorem map_id_of_mem {α : Type} {f : α → α} {l : List α}
    (h : ∀ x ∈ l, f x = x) : l.map f = l := by
  induction l with
  | nil => rfl
  | cons x t ih =>
    rw [List.map_cons, h x (by simp), ih (fun y hy => h y (by simp [hy]))]

theorem find?_append_not {α : Type} {l1 l2 : List α} {p : α → Bool}
    (h : ∀ x ∈ l1, p x = false) : (l1 ++ l2).find? p = l2.find? p := by
  induction l1 with
  | nil => rfl
  | cons x t ih =>
    rw [List.cons_append, List.find?_cons, h x (by simp)]
    exact ih (fun y hy => h y (by simp [hy]))

theorem finalizeFile_reset (tag deck : MdLine) (col : Collection)
    (out : List MdLine) (ids : List Nat) :
    finalizeFile tag deck
      { col := col, acc := accInit, to_write := [], out := out, ids := ids } =
      { col := col, acc := accInit, to_write := [], out := out, ids := ids } := by
  have h : handle_note tag deck accInit [['\n']] col = (col, [], none) :=
    handle_note_empty (Or.inl rfl)
  simp [finalizeFile, h, addId]

/-! ## Processing one note block -/

theorem process_block {tag deck : MdLine} {col : Collection} {q bl : MdLine}
    {M : List MdLine}
    (hq : (pyStartsWith qMarker q || pyStartsWith qaMarker q) = true)
    (hM : ∀ l ∈ M, isBlankLine l = false) (hbl : isBlankLine bl = true) :
    process_file tag deck col (q :: (M ++ [bl])) =
      { col := (handle_note tag deck (M.foldl accumLine (accumLine accInit q))
          ((q :: M) ++ [bl]) col).1,
        acc := accInit, to_write := [],
        out := (handle_note tag deck (M.foldl accumLine (accumLine accInit q))
          ((q :: M) ++ [bl]) col).2.1,
        ids := addId [] (handle_note tag deck
          (M.foldl accumLine (accumLine accInit q))
          ((q :: M) ++ [bl]) col).2.2 } := by
  have hqb : isBlankLine q = false := by
    rcases Bool.or_eq_true_iff.mp hq with h | h
    · exact isBlankLine_q_false h
    · exact isBlankLine_qa_false h
  unfold process_file
  rw [List.foldl_cons]
  rw [fileStep_active (by simpa using hq) hqb]
  rw [List.foldl_append]
  rw [foldl_fileStep_nonblank M _ hM (by simp)]
  rw [List.foldl_cons, List.foldl_nil]
  rw [fileStep_blank hbl (by simp)]
  rw [finalizeFile_reset]
  simp


theorem process_block_fresh {tag deck q bl m : MdLine} {M : List MdLine}
    {col : Collection}
    (hq : (pyStartsWith qMarker q || pyStartsWith qaMarker q) = true)
    (hM : ∀ l ∈ M, isBlankLine l = false)
    (hbl : isBlankLine bl = true)
    (hf : (M.foldl accumLine (accumLine accInit q)).front ≠ [])
    (hb : (M.foldl accumLine (accumLine accInit q)).back ≠ [])
    (hcid : (M.foldl accumLine (accumLine accInit q)).current_id = [])
    (hm : (M.foldl accumLine (accumLine accInit q)).model = some m)
    (hmem : m ∈ col.models)
    (hfresh : ∀ p ∈ col.notes, p.1 ≠ col.nextId) :
    process_file tag deck col (q :: (M ++ [bl])) =
      { col :=
          { notes := col.notes ++ [(col.nextId,
              { front := joinBr (M.foldl accumLine (accumLine accInit q)).front,
                back := joinBr (M.foldl accumLine (accumLine accInit q)).back,
                tags := [tag], deck := deck, model := m })],
            nextId := col.nextId + 1, models := col.models,
            decks := (addDeck col deck).decks },
        acc := accInit, to_write := [],
        out := q :: ((M ++ [idCommentLine (natToLine col.nextId)]) ++ [bl]),
        ids := [col.nextId] } := by
  have hh1 := @handle_note_fresh tag deck (M.foldl accumLine (accumLine accInit q))
    ((q :: M) ++ [bl]) col m hf hb hcid hm hmem hfresh
  have hr1 := @process_block tag deck col q bl M hq hM hbl
  rw [hh1] at hr1
  have hlen1 : ((q :: M) ++ [bl]).length - 1 = (q :: M).length := by simp
  rw [hlen1, List.take_left, List.drop_left] at hr1
  rw [hr1]
  simp [addId]

theorem process_block_update {tag deck q bl : MdLine} {M2 : List MdLine}
    {col : Collection} {note : HostNote}
    (hq : (pyStartsWith qMarker q || pyStartsWith qaMarker q) = true)
    (hM2 : ∀ l ∈ M2, isBlankLine l = false)
    (hbl : isBlankLine bl = true)
    (hf : (M2.foldl accumLine (accumLine accInit q)).front ≠ [])
    (hb : (M2.foldl accumLine (accumLine accInit q)).back ≠ [])
    (hcid : (M2.foldl accumLine (accumLine accInit q)).current_id ≠ [])
    (hlookup : getNote col (lineToNat
      (M2.foldl accumLine (accumLine accInit q)).current_id) = some note) :
    process_file tag deck col (q :: (M2 ++ [bl])) =
      { col := (modify_note col (lineToNat
            (M2.foldl accumLine (accumLine accInit q)).current_id)
            (joinBr (M2.foldl accumLine (accumLine accInit q)).front)
            (joinBr (M2.foldl accumLine (accumLine accInit q)).back) tag).2,
        acc := accInit, to_write := [],
        out := q :: (M2 ++ [bl]),
        ids := [lineToNat (M2.foldl accumLine (accumLine accInit q)).current_id] }
    := by
  have hh2 := @handle_note_modify tag deck
    (M2.foldl accumLine (accumLine accInit q)) ((q :: M2) ++ [bl]) col note
    hf hb hcid hlookup
  have hr2 := @process_block tag deck col q bl M2 hq hM2 hbl
  rw [hh2] at hr2
  rw [hr2]
  simp [addId]

/-- C5: a note block with no identifier-comment line is created with
the host-assigned identifier col.nextId; a new identifier-comment line
is inserted into the rewrite buffer immediately before the trailing
blank line; and a second import of the rewritten block finds that
identifier and reuses it, updating the existing note in place rather
than creating a duplicate: the second run returns exactly the first
run's state (same collection, same rewritten lines, same surviving
set). -/
theorem note_without_id_gets_comment_and_reuses
    {tag deck q bl m : MdLine} {M : List MdLine} {col : Collection}
    (hq : (pyStartsWith qMarker q || pyStartsWith qaMarker q) = true)
    (hM : ∀ l ∈ M, isBlankLine l = false)
    (hbl : isBlankLine bl = true)
    (hNoId : ∀ l ∈ q :: M, is_id_comment l = false)
    (hf : (M.foldl accumLine (accumLine accInit q)).front ≠ [])
    (hb : (M.foldl accumLine (accumLine accInit q)).back ≠ [])
    (hm : (M.foldl accumLine (accumLine accInit q)).model = some m)
    (hmem : m ∈ col.models)
    (hlo : 10 ^ 12 ≤ col.nextId) (hhi : col.nextId < 10 ^ 32)
    (hfresh : ∀ p ∈ col.notes, p.1 ≠ col.nextId) :
    (process_file tag deck col (q :: (M ++ [bl]))).col.notes
        = col.notes ++ [(col.nextId,
          { front := joinBr (M.foldl accumLine (accumLine accInit q)).front,
            back := joinBr (M.foldl accumLine (accumLine accInit q)).back,
            tags := [tag], deck := deck, model := m })]
      ∧ (process_file tag deck col (q :: (M ++ [bl]))).ids = [col.nextId]
      ∧ (process_file tag deck col (q :: (M ++ [bl]))).out
        = (q :: M) ++ [idCommentLine (natToLine col.nextId), bl]
      ∧ process_file tag deck (process_file tag deck col (q :: (M ++ [bl]))).col
          (process_file tag deck col (q :: (M ++ [bl]))).out
        = process_file tag deck col (q :: (M ++ [bl])) := by
  have hcid : (M.foldl accumLine (accumLine accInit q)).current_id = [] := by
    rw [foldl_accumLine_cid M _ (fun l hl => hNoId l (by simp [hl]))]
    rw [accumLine_cid_of_not_id (hNoId q (by simp))]
    rfl
  have h1 := @process_block_fresh tag deck q bl m M col hq hM hbl hf hb hcid hm
    hmem hfresh
  have hdig : ∀ c ∈ natToLine col.nextId, c.isDigit = true :=
    natToLine_all_digits col.nextId
  have hlen13 : 13 ≤ (natToLine col.nextId).length := natToLine_length13 hlo hhi
  have hA2 : (M ++ [idCommentLine (natToLine col.nextId)]).foldl accumLine
      (accumLine accInit q)
      = { M.foldl accumLine (accumLine accInit q) with
          current_id := natToLine col.nextId } := by
    rw [List.foldl_append]
    simp only [List.foldl_cons, List.foldl_nil]
    exact accumLine_idCommentLine _ hdig hlen13
  have hparse : lineToNat (natToLine col.nextId) = col.nextId :=
    lineToNat_natToLine hhi
  refine ⟨by rw [h1], by rw [h1], by rw [h1]; simp, ?_⟩
  rw [h1]
  have hM2 : ∀ l ∈ M ++ [idCommentLine (natToLine col.nextId)],
      isBlankLine l = false := by
    intro l hl
    rcases List.mem_append.mp hl with h | h
    · exact hM _ h
    · rw [List.mem_singleton.mp h]
      exact isBlankLine_idCommentLine _
  have hlookup : getNote
      { notes := col.notes ++ [(col.nextId,
          { front := joinBr (M.foldl accumLine (accumLine accInit q)).front,
            back := joinBr (M.foldl accumLine (accumLine accInit q)).back,
            tags := [tag], deck := deck, model := m })],
        nextId := col.nextId + 1, models := col.models,
        decks := (addDeck col deck).decks }
      (lineToNat ((M ++ [idCommentLine (natToLine col.nextId)]).foldl accumLine
        (accumLine accInit q)).current_id)
      = some
        { front := joinBr (M.foldl accumLine (accumLine accInit q)).front,
          back := joinBr (M.foldl accumLine (accumLine accInit q)).back,
          tags := [tag], deck := deck, model := m } := by
    rw [hA2]
    show getNote _ (lineToNat (natToLine col.nextId)) = _
    rw [hparse]
    unfold getNote
    show ((col.notes ++ [(col.nextId,
      ({ front := joinBr (M.foldl accumLine (accumLine accInit q)).front,
         back := joinBr (M.foldl accumLine (accumLine accInit q)).back,
         tags := [tag], deck := deck, model := m } : HostNote))]).find?
      (fun p => p.1 == col.nextId)).map (fun p => p.2) = _
    rw [find?_append_not (fun p hp => by
      simpa using hfresh p hp)]
    simp
  have h2 := @process_block_update tag deck q bl
    (M ++ [idCommentLine (natToLine col.nextId)])
    { notes := col.notes ++ [(col.nextId,
        { front := joinBr (M.foldl accumLine (accumLine accInit q)).front,
          back := joinBr (M.foldl accumLine (accumLine accInit q)).back,
          tags := [tag], deck := deck, model := m })],
      nextId := col.nextId + 1, models := col.models,
      decks := (addDeck col deck).decks }
    { front := joinBr (M.foldl accumLine (accumLine accInit q)).front,
      back := joinBr (M.foldl accumLine (accumLine accInit q)).back,
      tags := [tag], deck := deck, model := m }
    hq hM2 hbl
    (by rw [hA2]; exact hf) (by rw [hA2]; exact hb)
    (by rw [hA2]; exact natToLine_ne_nil _) hlookup
  show process_file tag deck _
    (q :: ((M ++ [idCommentLine (natToLine col.nextId)]) ++ [bl])) = _
  rw [h2]
  have hmod : (modify_note
      { notes := col.notes ++ [(col.nextId,
          { front := joinBr (M.foldl accumLine (accumLine accInit q)).front,
            back := joinBr (M.foldl accumLine (accumLine accInit q)).back,
            tags := [tag], deck := deck, model := m })],
        nextId := col.nextId + 1, models := col.models,
        decks := (addDeck col deck).decks }
      (lineToNat (natToLine col.nextId))
      (joinBr (M.foldl accumLine (accumLine accInit q)).front)
      (joinBr (M.foldl accumLine (accumLine accInit q)).back) tag).2
      = { notes := col.notes ++ [(col.nextId,
          { front := joinBr (M.foldl accumLine (accumLine accInit q)).front,
            back := joinBr (M.foldl accumLine (accumLine accInit q)).back,
            tags := [tag], deck := deck, model := m })],
          nextId := col.nextId + 1, models := col.models,
          decks := (addDeck col deck).decks } := by
    rw [hparse]
    unfold modify_note
    simp only [List.map_append]
    rw [map_id_of_mem (fun p hp => by
      simp [beq_eq_false_iff_ne.mpr (hfresh p hp)])]
    simp [addTagL]
  simp only [hA2]
  rw [hmod, hparse]

/-! ## Concrete fixtures -/

/-- An empty collection whose next fresh id is a 13-digit timestamp. -/
def colW : Collection :=
  { notes := [], nextId := 1510862771508,
    models := [BASIC_MODEL, REVERSE_MODEL], decks := [] }

/-- An empty collection whose next fresh id differs from the stale
identifier 1510862771508 used in the fixtures. -/
def colW2 : Collection :=
  { notes := [], nextId := 1600000000000,
    models := [BASIC_MODEL, REVERSE_MODEL], decks := [] }

/-- One root-level markdown file with one note block whose identifier
comment precedes the answer line. -/
def fsW : MdFS :=
  [([s2l ("cards.md")],
    [s2l ("Q: q\n"), s2l ("<!-- 1510862771508 -->\n"), s2l ("A: a\n"),
     s2l ("\n")])]

/-- C5 witness at a concrete block and collection. -/
theorem note_without_id_gets_comment_and_reuses_witness :
    (process_file (s2l ("t")) DEFAULT_DECK colW
        (s2l ("Q: q\n") :: ([s2l ("A: a\n")] ++ [s2l ("\n")]))).col.notes
      = colW.notes ++ [(colW.nextId,
        { front := joinBr (([s2l ("A: a\n")]).foldl accumLine
            (accumLine accInit (s2l ("Q: q\n")))).front,
          back := joinBr (([s2l ("A: a\n")]).foldl accumLine
            (accumLine accInit (s2l ("Q: q\n")))).back,
          tags := [s2l ("t")], deck := DEFAULT_DECK, model := BASIC_MODEL })] :=
  (@note_without_id_gets_comment_and_reuses (s2l ("t")) DEFAULT_DECK
    (s2l ("Q: q\n")) (s2l ("\n")) BASIC_MODEL [s2l ("A: a\n")] colW
    (by decide) (by decide) (by decide) (by decide) (by decide) (by decide)
    (by decide) (by decide) (by decide) (by decide) (by decide)).1

/-- C2 (amended): a note block whose front or back is empty is a silent
no-op towards the host — no creation, update or deletion and no id is
recorded — but its buffered lines are NOT written through: the note
resolution writes nothing, so the block is omitted from the rewritten
file. -/
theorem empty_note_silent_noop {tag deck : MdLine} {a : NoteAcc}
    {tw : List MdLine} {col : Collection} (h : a.front = [] ∨ a.back = []) :
    handle_note tag deck a tw col = (col, [], none) :=
  handle_note_empty h

/-- C2 witness: a block with a front and no back resolves to a no-op
that writes nothing. -/
theorem empty_note_silent_noop_witness :
    handle_note (s2l ("t")) DEFAULT_DECK
      { front := [s2l ("q")], back := [], model := some BASIC_MODEL,
        current_id := [] } [s2l ("Q: q\n"), s2l ("\n")] colW
      = (colW, [], none) :=
  empty_note_silent_noop (Or.inr rfl)

/-- C2 counterexample: the claim says the buffered lines of an
empty-back block are still written through unchanged; in fact the
rewritten file omits them entirely (the early return precedes the
writelines call), keeping only the pass-through line. -/
theorem empty_note_lines_dropped_cex :
    (process_file (s2l ("t")) DEFAULT_DECK colW
        [s2l ("Q: q\n"), s2l ("\n"), s2l ("after\n")]).out = [s2l ("after\n")]
    ∧ ¬ s2l ("Q: q\n") ∈ (process_file (s2l ("t")) DEFAULT_DECK colW
        [s2l ("Q: q\n"), s2l ("\n"), s2l ("after\n")]).out
    ∧ (process_file (s2l ("t")) DEFAULT_DECK colW
        [s2l ("Q: q\n"), s2l ("\n"), s2l ("after\n")]).col = colW := by
  decide

/-- C3 (amended): a line starting with the question marker always sets
cardKind to Basic, appends the remainder after the marker as a front
line and buffers the raw line — and nothing else: back,
pendingIdentifier and previously accumulated front lines are retained,
so such a line does not reset an in-progress note (a new note starts
only because the state is fresh after initialization or a blank-line
reset). -/
theorem q_line_appends_without_reset {tag deck l : MdLine} {s : LoopState}
    (hq : pyStartsWith qMarker l = true) :
    fileStep tag deck s l =
      { s with
        acc := { s.acc with
                 model := some BASIC_MODEL,
                 front := s.acc.front ++ [strip (l.drop 2)] },
        to_write := s.to_write ++ [l] } := by
  rw [fileStep_active (by rw [hq]; simp) (isBlankLine_q_false hq)]
  simp [accumLine, hq]

/-- C3 witness: a question-marker line arriving while a note is open
extends that note's state without resetting it. -/
theorem q_line_appends_without_reset_witness :
    fileStep (s2l ("t")) DEFAULT_DECK
      { col := colW,
        acc := { front := [s2l ("a")], back := [s2l ("x")],
                 model := some BASIC_MODEL,
                 current_id := s2l ("1510862771508") },
        to_write := [s2l ("Q: a\n")], out := [], ids := [] } (s2l ("Q: b\n"))
      = { col := colW,
          acc := { front := [s2l ("a")] ++ [strip ((s2l ("Q: b\n")).drop 2)],
                   back := [s2l ("x")],
                   model := some BASIC_MODEL,
                   current_id := s2l ("1510862771508") },
          to_write := [s2l ("Q: a\n")] ++ [s2l ("Q: b\n")], out := [],
          ids := [] } :=
  q_line_appends_without_reset (by decide)

/-- C3 counterexample: against the claim that a question-marker line
mid-note resets the accumulation state, the block Q: a / Q: b / A: c /
blank yields one note whose front is the join of both question
remainders, a<br>b, not b. -/
theorem q_line_mid_note_no_reset_cex :
    (process_file (s2l ("t")) DEFAULT_DECK colW
        [s2l ("Q: a\n"), s2l ("Q: b\n"), s2l ("A: c\n"), s2l ("\n")]).col.notes
      = [(1510862771508,
          { front := s2l ("a<br>b"), back := s2l ("c"), tags := [s2l ("t")],
            deck := DEFAULT_DECK, model := BASIC_MODEL })]
    ∧ ¬ (s2l ("a<br>b")) = (s2l ("b")) := by
  decide

/-- C4: at a block whose identifier comment precedes the answer line
and whose identifier is absent from the host, the fallback creation
succeeds and uses the pending identifier (1510862771508, not the
host's next fresh id) — but the repair overwrites the second-to-last
buffered line, which here is the answer line, so A: a is destroyed in
the rewritten file instead of the identifier-comment line being
overwritten. -/
theorem stale_id_overwrite_destroys_answer_line :
    (process_file (s2l ("t")) DEFAULT_DECK colW2
        [s2l ("Q: q\n"), s2l ("<!-- 1510862771508 -->\n"), s2l ("A: a\n"),
         s2l ("\n")]).out
      = [s2l ("Q: q\n"), s2l ("<!-- 1510862771508 -->\n"),
         s2l ("<!-- 1510862771508 -->\n"), s2l ("\n")]
    ∧ ¬ s2l ("A: a\n") ∈ (process_file (s2l ("t")) DEFAULT_DECK colW2
        [s2l ("Q: q\n"), s2l ("<!-- 1510862771508 -->\n"), s2l ("A: a\n"),
         s2l ("\n")]).out
    ∧ (process_file (s2l ("t")) DEFAULT_DECK colW2
        [s2l ("Q: q\n"), s2l ("<!-- 1510862771508 -->\n"), s2l ("A: a\n"),
         s2l ("\n")]).col.notes
      = [(1510862771508,
          { front := s2l ("q"), back := s2l ("a"), tags := [s2l ("t")],
            deck := DEFAULT_DECK, model := BASIC_MODEL })]
    ∧ (process_file (s2l ("t")) DEFAULT_DECK colW2
        [s2l ("Q: q\n"), s2l ("<!-- 1510862771508 -->\n"), s2l ("A: a\n"),
         s2l ("\n")]).ids = [1510862771508] := by
  decide

/-- C6: two successive imports of an unchanged directory are not
idempotent here: the first run succeeds (nothing deleted), but its
buffer repair destroys the answer line of the file, so the second run
parses an empty-back block, drops it, and then deletes the note —
deletion count 1, the collection emptied, and the file's content
erased. -/
theorem second_import_deletes_surviving_note :
    (process_all_notes colW2 fsW).deleted = some 0
    ∧ (process_all_notes (process_all_notes colW2 fsW).col
        (process_all_notes colW2 fsW).fs).deleted = some 1
    ∧ (process_all_notes (process_all_notes colW2 fsW).col
        (process_all_notes colW2 fsW).fs).col.notes = []
    ∧ (process_all_notes (process_all_notes colW2 fsW).col
        (process_all_notes colW2 fsW).fs).fs = [([s2l ("cards.md")], [])] := by
  decide

/-- C7: a line is classified as an identifier comment exactly when it
contains the comment-style marker (the opening pair, two-or-more
dashes, optional spaces) wrapping at least 13 consecutive digits with
matching closing characters; extraction returns the first run of 13 or
more digits of the line; the comment with only three digits is not
classified, so the note containing it is assigned a fresh
(host-assigned) identifier. -/
theorem id_comment_detection_and_extraction :
    (∀ line : MdLine, is_id_comment line = true ↔ IdCommentSpec line)
    ∧ (∀ line : MdLine, ∀ d : MdLine,
        get_id_from_comment line = some d ↔ FirstDigitRun line d)
    ∧ is_id_comment (s2l ("<!-- 123 -->")) = false
    ∧ (process_file (s2l ("t")) DEFAULT_DECK colW
        [s2l ("Q: q\n"), s2l ("<!-- 123 -->\n"), s2l ("A: a\n"),
         s2l ("\n")]).col.notes
      = [(colW.nextId,
          { front := s2l ("q<br><!-- 123 -->"), back := s2l ("a"),
            tags := [s2l ("t")], deck := DEFAULT_DECK,
            model := BASIC_MODEL })] :=
  ⟨is_id_comment_iff, get_id_iff, by decide, by decide⟩

/-- C9: when the destination Notes folder already exists, the export
aborts before creating any folder or writing any file, shows the user
the abort message, and returns without exporting any deck. -/
theorem export_aborts_when_notes_folder_exists (col : Collection) :
    export_all_notes col true =
      { folders := [], files := [], notifiedAbort := true,
        decksExported := none } :=
  rfl

/-- C10: on any line classified as an identifier comment, extraction
cannot fail: a digit run of length at least 13 exists, indexing the
first findall result is safe, and the value returned is the first run
of 13-or-more consecutive digits of the line. -/
theorem get_id_safe_on_id_comment {line : MdLine}
    (h : is_id_comment line = true) :
    ∃ d, get_id_from_comment line = some d ∧ FirstDigitRun line d :=
  get_id_some_of_is_id h

/-- C10 witness at a concrete identifier comment. -/
theorem get_id_safe_on_id_comment_witness :
    is_id_comment (s2l ("<!-- 1510862771508 -->")) = true
    ∧ ∃ d, get_id_from_comment (s2l ("<!-- 1510862771508 -->")) = some d
        ∧ FirstDigitRun (s2l ("<!-- 1510862771508 -->")) d :=
  ⟨by decide, get_id_safe_on_id_comment (by decide)⟩

/-! ## Reconciler lemmas -/

theorem concatMap_congr {α β : Type} {f g : α → List β} :
    ∀ {l : List α}, (∀ a ∈ l, f a = g a) → concatMap f l = concatMap g l := by
  intro l
  induction l with
  | nil => intro _; rfl
  | cons a t ih =>
    intro h
    show f a ++ concatMap f t = g a ++ concatMap g t
    rw [h a (by simp), ih (fun x hx => h x (by simp [hx]))]

theorem concatMap_nil_fun {α β : Type} (l : List α) :
    concatMap (fun _ => ([] : List β)) l = [] := by
  induction l with
  | nil => rfl
  | cons a t ih => show [] ++ _ = [] ; rw [List.nil_append]; exact ih

theorem concatMap_map {α β γ : Type} (g : α → List β) (f : β → γ) :
    ∀ (l : List α), concatMap (fun a => (g a).map f) l = (concatMap g l).map f := by
  intro l
  induction l with
  | nil => rfl
  | cons a t ih =>
    show (g a).map f ++ _ = _
    rw [ih]
    show _ = (g a ++ concatMap g t).map f
    rw [List.map_append]

theorem mem_concatMap {α β : Type} {f : α → List β} {b : β} :
    ∀ {l : List α}, b ∈ concatMap f l ↔ ∃ a ∈ l, b ∈ f a := by
  intro l
  induction l with
  | nil => simp [concatMap]
  | cons a t ih =>
    show b ∈ f a ++ concatMap f t ↔ _
    rw [List.mem_append, ih]
    constructor
    · rintro (h | ⟨x, hx, hb⟩)
      · exact ⟨a, by simp, h⟩
      · exact ⟨x, by simp [hx], hb⟩
    · rintro ⟨x, hx, hb⟩
      rcases List.mem_cons.mp hx with rfl | hx2
      · exact Or.inl hb
      · exact Or.inr ⟨x, hx2, hb⟩

theorem concatMap_insert_perm {α β : Type} {f g : α → List β} {p : β} {d0 : α} :
    ∀ {decks : List α}, decks.Nodup → d0 ∈ decks →
    (∀ d, d = d0 → g d = p :: f d) → (∀ d, d ≠ d0 → g d = f d) →
    (concatMap g decks).Perm (p :: concatMap f decks) := by
  intro decks
  induction decks with
  | nil => intro _ h; simp at h
  | cons d t ih =>
    intro hnd hmem heq hne
    have hnd2 := List.nodup_cons.mp hnd
    show (g d ++ concatMap g t).Perm (p :: (f d ++ concatMap f t))
    by_cases hd : d = d0
    · rw [heq d hd]
      have ht : concatMap g t = concatMap f t := by
        apply concatMap_congr
        intro x hx
        exact hne x (fun hx0 => hnd2.1 (hd ▸ hx0 ▸ hx))
      rw [ht]
      exact List.Perm.refl _
    · rw [hne d hd]
      have hmem2 : d0 ∈ t := by
        rcases List.mem_cons.mp hmem with h | h
        · exact absurd h.symm hd
        · exact h
      have hp1 : (f d ++ concatMap g t).Perm (f d ++ (p :: concatMap f t)) :=
        List.Perm.append_left (f d) (ih hnd2.2 hmem2 heq hne)
      have hp2 : (f d ++ p :: concatMap f t).Perm (p :: (f d ++ concatMap f t)) :=
        List.perm_middle
      exact hp1.trans hp2

theorem concatMap_filter_deck_perm {decks : List MdLine} :
    ∀ {notes : List (Nat × HostNote)}, decks.Nodup →
    (∀ p ∈ notes, p.2.deck ∈ decks) →
    (concatMap (fun d => notes.filter (fun p => p.2.deck == d)) decks).Perm
      notes := by
  intro notes
  induction notes with
  | nil =>
    intro _ _
    rw [concatMap_congr (fun a _ => List.filter_nil _), concatMap_nil_fun]
  | cons p rest ih =>
    intro hnd hdk
    have hperm := @concatMap_insert_perm MdLine (Nat × HostNote)
      (fun d => rest.filter (fun x => x.2.deck == d))
      (fun d => (p :: rest).filter (fun x => x.2.deck == d))
      p p.2.deck decks hnd (hdk p (by simp))
      (fun d hd => by
        simp only [List.filter_cons]
        rw [if_pos (by simp [hd.symm])])
      (fun d hd => by
        simp only [List.filter_cons]
        rw [if_neg (by
          simp only [beq_iff_eq]
          exact fun hc => hd hc.symm)])
    exact hperm.trans (List.Perm.cons p
      (ih hnd (fun x hx => hdk x (by simp [hx]))))

theorem map_filter_comm {α β : Type} (f : α → β) (q : β → Bool) :
    ∀ (l : List α), (l.map f).filter q = (l.filter (fun x => q (f x))).map f := by
  intro l
  induction l with
  | nil => rfl
  | cons x t ih =>
    rw [List.map_cons, List.filter_cons, List.filter_cons]
    by_cases h : q (f x) = true
    · rw [if_pos h, if_pos h, List.map_cons, ih]
    · rw [if_neg h, if_neg h, ih]

/-- C1: after all files are processed, delete_notes removes exactly the
notes — across every deck of the host collection, including decks no
processed file corresponds to — whose identifier is not in the
surviving set, and the returned count equals the number of notes so
removed. -/
theorem delete_notes_removes_nonsurviving {col : Collection}
    {existing : List Nat}
    (hnd : col.decks.Nodup) (hdk : ∀ p ∈ col.notes, p.2.deck ∈ col.decks) :
    (delete_notes col existing).1.notes
        = col.notes.filter (fun p => existing.contains p.1)
    ∧ (delete_notes col existing).2
        = (col.notes.filter (fun p => !(existing.contains p.1))).length := by
  have hdeck : ∀ d, (findNotes col d).filter (fun cid => !(existing.contains cid))
      = ((col.notes.filter (fun p => !(existing.contains p.1))).filter
          (fun p => p.2.deck == d)).map (fun p => p.1) := by
    intro d
    unfold findNotes
    rw [map_filter_comm]
    congr 1
    rw [List.filter_filter, List.filter_filter]
    exact List.filter_congr (fun x _ => Bool.and_comm _ _)
  have hhits : concatMap (fun d => (findNotes col d).filter
      (fun cid => !(existing.contains cid))) col.decks
      = (concatMap (fun d => (col.notes.filter
          (fun p => !(existing.contains p.1))).filter
          (fun p => p.2.deck == d)) col.decks).map (fun p => p.1) := by
    rw [concatMap_congr (fun d _ => hdeck d)]
    rw [concatMap_map]
  have hperm : (concatMap (fun d => (col.notes.filter
      (fun p => !(existing.contains p.1))).filter
      (fun p => p.2.deck == d)) col.decks).Perm
      (col.notes.filter (fun p => !(existing.contains p.1))) :=
    concatMap_filter_deck_perm hnd (fun p hp => hdk p (List.mem_filter.mp hp).1)
  simp only [delete_notes]
  constructor
  · apply List.filter_congr
    intro p hp
    rw [hhits]
    by_cases he : p.1 ∈ existing
    · have h1 : existing.contains p.1 = true := List.elem_iff.mpr he
      have h2 : ((concatMap (fun d => (col.notes.filter
          (fun p => !(existing.contains p.1))).filter
          (fun p => p.2.deck == d)) col.decks).map (fun p => p.1)).contains p.1
          = false := by
        apply Bool.eq_false_iff.mpr
        intro hc
        obtain ⟨x, hx1, hx2⟩ := List.mem_map.mp
          ((hperm.map (fun p => p.1)).mem_iff.mp (List.elem_iff.mp hc))
        have hx3 := (List.mem_filter.mp hx1).2
        rw [hx2, h1] at hx3
        exact absurd hx3 (by simp)
      rw [h1, h2]
      rfl
    · have h1 : existing.contains p.1 = false :=
        Bool.eq_false_iff.mpr (fun hc => he (List.elem_iff.mp hc))
      have h2 : ((concatMap (fun d => (col.notes.filter
          (fun p => !(existing.contains p.1))).filter
          (fun p => p.2.deck == d)) col.decks).map (fun p => p.1)).contains p.1
          = true := by
        apply List.elem_iff.mpr
        apply (hperm.map (fun p => p.1)).mem_iff.mpr
        apply List.mem_map.mpr
        exact ⟨p, List.mem_filter.mpr ⟨hp, by rw [h1]; rfl⟩, rfl⟩
      rw [h1, h2]
      rfl
  · rw [hhits, List.length_map]
    exact hperm.length_eq

/-- A note of the deck X fixture. -/
def noteX (f : MdLine) : HostNote :=
  { front := f, back := f, tags := [], deck := s2l ("X"), model := BASIC_MODEL }

/-- A collection with notes A, B, C in deck X. -/
def colD : Collection :=
  { notes := [(1111111111111, noteX (s2l ("a"))),
              (1111111111112, noteX (s2l ("b"))),
              (1111111111113, noteX (s2l ("c")))],
    nextId := 1600000000000, models := [BASIC_MODEL], decks := [s2l ("X")] }

/-- The surviving-identifier set {A, B}. -/
def survD : List Nat := [1111111111111, 1111111111112]

/-- C1 witness: with host identifiers {A, B, C} in deck X and surviving
set {A, B}, note C is deleted and the reported count is 1. -/
theorem delete_notes_removes_nonsurviving_witness :
    (delete_notes colD survD).1.notes
        = colD.notes.filter (fun p => survD.contains p.1)
    ∧ (delete_notes colD survD).2
        = (colD.notes.filter (fun p => !(survD.contains p.1))).length
    ∧ (delete_notes colD survD).2 = 1
    ∧ (delete_notes colD survD).1.notes
        = [(1111111111111, noteX (s2l ("a"))), (1111111111112, noteX (s2l ("b")))] :=
  ⟨(delete_notes_removes_nonsurviving (by decide) (by decide)).1,
   (delete_notes_removes_nonsurviving (by decide) (by decide)).2,
   by decide, by decide⟩

/-! ## Deck routing -/

/-- C8 (amended): process_all_notes routes every markdown file directly
in the root whose name glob matches (ends in .md and, per glob's
dotfile rule, does not start with a period) to the deck Default;
every markdown file exactly one directory below the root (both names
glob-matching) to the deck named after its immediate parent directory;
and never discovers a file nested two or more levels deep. -/
theorem deck_routing_globs (fs : MdFS) (f : List MdLine × List MdLine)
    (hf : f ∈ fs) :
    (∀ n, f.1 = [n] → isMdName n = true → (f, DEFAULT_DECK) ∈ discovered fs)
    ∧ (∀ d n, f.1 = [d, n] → isStarName d = true → isMdName n = true →
        (f, d) ∈ discovered fs)
    ∧ (3 ≤ f.1.length → ∀ dk, (f, dk) ∉ discovered fs) := by
  refine ⟨?_, ?_, ?_⟩
  · intro n hp hmd
    apply List.mem_append_left
    apply List.mem_map_of_mem
    apply List.mem_filter.mpr
    refine ⟨hf, ?_⟩
    rw [hp]
    exact hmd
  · intro d n hp hstar hmd
    apply List.mem_append_right
    apply List.mem_map.mpr
    refine ⟨f, List.mem_filter.mpr ⟨hf, ?_⟩, ?_⟩
    · rw [hp]
      simp [hstar, hmd]
    · show (f, deckOfPath f.1) = (f, d)
      simp [hp, deckOfPath]
  · intro hlen dk hmem
    rcases List.mem_append.mp hmem with h | h
    · obtain ⟨g, hg1, hg2⟩ := List.mem_map.mp h
      have hgf : g = f := congrArg Prod.fst hg2
      rw [hgf] at hg1
      have hp := (List.mem_filter.mp hg1).2
      match hl : f.1, hp with
      | [n], hp => rw [hl] at hlen; simp at hlen
    · obtain ⟨g, hg1, hg2⟩ := List.mem_map.mp h
      have hgf : g = f := congrArg Prod.fst hg2
      rw [hgf] at hg1
      have hp := (List.mem_filter.mp hg1).2
      match hl : f.1, hp with
      | [d2, n2], hp => rw [hl] at hlen; simp at hlen

/-- C8 counterexample: a hidden markdown file directly in the root,
.hidden.md, ends in .md yet is not discovered at all (glob's `*`
does not match a leading period), so it is not assigned to any deck —
against the claim that every root markdown file maps to Default. -/
theorem hidden_md_not_discovered_cex :
    discovered [([s2l (".hidden.md")], ([] : List MdLine))] = []
    ∧ (s2l (".md")).isSuffixOf (s2l (".hidden.md")) = true := by
  decide

/-- A filesystem with a root file, a one-level file and a two-level file. -/
def fsR : MdFS :=
  [([s2l ("a.md")], ([] : List MdLine)),
   ([s2l ("Sub"), s2l ("n.md")], ([] : List MdLine)),
   ([s2l ("Sub"), s2l ("Deep"), s2l ("x.md")], ([] : List MdLine))]

/-- C8 witness at the two-level fixture's root file. -/
theorem deck_routing_globs_witness :
    (∀ n, ([s2l ("a.md")], ([] : List MdLine)).1 = [n] → isMdName n = true →
      (([s2l ("a.md")], ([] : List MdLine)), DEFAULT_DECK) ∈ discovered fsR)
    ∧ (∀ d n, ([s2l ("a.md")], ([] : List MdLine)).1 = [d, n] →
        isStarName d = true → isMdName n = true →
        (([s2l ("a.md")], ([] : List MdLine)), d) ∈ discovered fsR)
    ∧ (3 ≤ ([s2l ("a.md")], ([] : List MdLine)).1.length →
        ∀ dk, (([s2l ("a.md")], ([] : List MdLine)), dk) ∉ discovered fsR) :=
  deck_routing_globs fsR ([s2l ("a.md")], ([] : List MdLine)) (by decide)
